import Mathlib

/-
Verification of the CFNetwork buffered stream engine (Connection.cpp,
Socket.cpp, CFNetwork.cpp / CFNetwork.hpp).

The C++ code is shallowly embedded as follows:
- Bytes are `Nat`; the internal `std::string buffer` is a `List Nat`.
- The kernel side of the blocking `read(2)` system call is modeled as a
  script (`List ReadEvent`): each call to `read(2)` consumes the next
  event.  An `ReadEvent.ok bs` event delivers `bs.take count` bytes where
  `count` is the byte count requested by the call (so a delivery never
  exceeds the requested count, exactly as `read(2)` guarantees); a
  `ReadEvent.err` event makes the call return a negative value.
  An exhausted script models a call that blocks forever.
- The file descriptor is abstracted to its validity (`fdValid`): the
  `valid()` method (an `fcntl(F_GETFD)`/`EBADF` probe in the source)
  reports this flag, and `close(2)` clears it.
- Thrown C++ exceptions become explicit result constructors
  (`invalidArg` for `CFNetwork::InvalidArgument`, `reset` for
  `CFNetwork::UnexpectedError`, i.e. "Connection reset by peer").
-/

namespace CFNetwork

/-- Socket family of a `Connection`/`Socket` (CFNetwork.hpp `SocketFamily`). -/
inductive SocketFamily
  | IPv4
  | IPv6
  deriving DecidableEq, Repr

/-- Flow direction of a `Connection` (CFNetwork.hpp `ConnectionFlow`). -/
inductive ConnectionFlow
  | Inbound
  | Outbound
  deriving DecidableEq, Repr

/-- Raw address family tag of a `sockaddr_storage` (`ss_family`): `AF_INET`,
`AF_INET6`, or anything else. -/
inductive AddrFamily
  | inet
  | inet6
  | other
  deriving DecidableEq, Repr

/-- Model of a parsed `sockaddr_storage` as produced by `parseAddress`: the
family tag together with the canonical numeric text that `inet_ntop` yields
for the stored binary address. -/
structure AddrStorage where
  ss_family : AddrFamily
  canonical : String
  deriving DecidableEq, Repr

/-- The two exception kinds of the CFNetwork namespace (CFNetwork.hpp). -/
inductive CFErr
  | invalidArgument
  | unexpectedError
  deriving DecidableEq, Repr

/-- Syscalls whose occurrence the constructor models record, so that the
"rejected before any system call" claims are statable. -/
inductive Sys
  | parseCall
  | socketCall
  | connectCall
  | bindCall
  | sockoptCall
  | listenCall
  | closeCall
  deriving DecidableEq, Repr

/-- `MAX_BYTES` from CFNetwork.hpp: fixed per-call read cap. -/
def MAX_BYTES : Nat := 8192

/-- State of a `Connection` object (Connection.hpp).  The `int socket`
descriptor is abstracted to its validity `fdValid` (what `valid()` reports
and what `close(2)` clears). -/
structure Connection where
  buffer  : List Nat
  fdValid : Bool
  family  : SocketFamily
  flow    : ConnectionFlow
  listen  : String
  remote  : String
  port    : Int
  deriving DecidableEq, Repr

/-- One event of the kernel-side read script: either data made available to
a single `read(2)` call, or a negative (error) return. -/
inductive ReadEvent
  | ok (bs : List Nat)
  | err
  deriving DecidableEq, Repr

/-- `Connection::valid()`: the `fcntl(F_GETFD) != -1 || errno != EBADF`
probe of the descriptor, abstracted to the descriptor-validity flag. -/
def Connection.valid (c : Connection) : Bool :=
  c.fdValid

/-- Outcome of the read-loop inside `Connection::enqueueData`. -/
inductive LoopOut
  | done (c : Connection) (rem : Nat) (rest : List ReadEvent)
  | reset (c : Connection) (rest : List ReadEvent)
  | blocked
  deriving DecidableEq, Repr

/-- The `do { ... } while (reliable && return_val >= 0 && read_length > 0)`
loop of `Connection::enqueueData` (Connection.cpp lines 199-229).  `rl` is
the remaining `read_length`; each iteration requests
`read_length <= MAX_BYTES ? read_length : MAX_BYTES` bytes from `read(2)`,
appends the delivered bytes to the tail of the internal buffer and
decreases `read_length` by the amount delivered; a negative return closes
the descriptor and throws `UnexpectedError`.  The second component is the
trace of byte counts requested from `read(2)` (the last entry of a blocked
run being the request that never returned). -/
def enqueueLoop (reliable : Bool) (c : Connection) (rl : Nat) :
    List ReadEvent → LoopOut × List Nat
  | [] => (.blocked, [min rl MAX_BYTES])
  | .err :: rest => (.reset { c with fdValid := false } rest, [min rl MAX_BYTES])
  | .ok bs :: rest =>
    let count := min rl MAX_BYTES
    let delivered := bs.take count
    let c' := { c with buffer := c.buffer ++ delivered }
    let rl' := rl - delivered.length
    if reliable = true ∧ 0 < rl' then
      match enqueueLoop reliable c' rl' rest with
      | (out, reqs) => (out, count :: reqs)
    else (.done c' rl' rest, [count])

/-- Outcome of `Connection::enqueueData`. -/
inductive EnqOut
  | ok (c : Connection) (returned : Nat) (rest : List ReadEvent)
  | invalidArg (c : Connection)
  | reset (c : Connection) (rest : List ReadEvent)
  | blocked
  deriving DecidableEq, Repr

/-- `Connection::enqueueData(bool reliable, size_t request_length)`
(Connection.cpp lines 184-232): rejects a zero-length request, clamps the
target to `min(request_length, MAX_BYTES)` in unreliable mode, rejects an
invalid descriptor, then runs the read loop; returns
`request_length - read_length`, the total number of bytes enqueued.  The
second component is the trace of byte counts requested from `read(2)`. -/
def Connection.enqueueData (c : Connection) (reliable : Bool)
    (request_length : Nat) (script : List ReadEvent) : EnqOut × List Nat :=
  if request_length = 0 then (.invalidArg c, [])
  else
    let rl := if reliable then request_length else min request_length MAX_BYTES
    if c.fdValid = false then (.invalidArg c, [])
    else if 0 < rl then
      match enqueueLoop reliable c rl script with
      | (.done c' rem rest, reqs) => (.ok c' (rl - rem) rest, reqs)
      | (.reset c' rest, reqs) => (.reset c' rest, reqs)
      | (.blocked, reqs) => (.blocked, reqs)
    else (.ok c 0 script, [])

/-- Outcome of `Connection::read` / `Connection::readDelim`. -/
inductive ReadOut
  | ok (c : Connection) (data : List Nat) (rest : List ReadEvent)
  | invalidArg (c : Connection)
  | reset (c : Connection) (rest : List ReadEvent)
  | blocked
  deriving DecidableEq, Repr

/-- Tail of `Connection::read` (Connection.cpp lines 345-352): take
`str_length = min(request_length, buffer length)` bytes from the head of
the buffer and erase them. -/
def readFinish (c : Connection) (request_length : Nat)
    (rest : List ReadEvent) : ReadOut :=
  let sl := min request_length c.buffer.length
  .ok { c with buffer := c.buffer.drop sl } (c.buffer.take sl) rest

/-- `Connection::read(bool reliable, size_t request_length)` (Connection.cpp
lines 330-353): if the buffer is short of `request_length`, call
`enqueueData` for `request_length - buf_length` (reliable) or `MAX_BYTES`
(unreliable), then consume `min(request_length, buffer length)` bytes from
the head of the buffer.  The second component records the `(reliable,
remaining_length)` arguments of the `enqueueData` calls made. -/
def Connection.read (c : Connection) (reliable : Bool) (request_length : Nat)
    (script : List ReadEvent) : ReadOut × List (Bool × Nat) :=
  let buf_length := c.buffer.length
  if buf_length < request_length then
    let remaining_length :=
      if reliable then request_length - buf_length else MAX_BYTES
    if 0 < remaining_length then
      match c.enqueueData reliable remaining_length script with
      | (.ok c' _ rest, _) => (readFinish c' request_length rest,
          [(reliable, remaining_length)])
      | (.invalidArg c', _) => (.invalidArg c', [(reliable, remaining_length)])
      | (.reset c' rest, _) => (.reset c' rest, [(reliable, remaining_length)])
      | (.blocked, _) => (.blocked, [(reliable, remaining_length)])
    else (readFinish c request_length script, [])
  else (readFinish c request_length script, [])

/-- `std::string::find(delim, offset)` on the byte-list buffer: index of the
first occurrence of `d` at position `i` or later, with `i` the running
absolute index. -/
def strFindAux (d : Nat) : List Nat → Nat → Option Nat
  | [], _ => none
  | b :: rest, i => if b = d then some i else strFindAux d rest (i + 1)

/-- `buffer.find(delim, offset)`: absolute index of the first occurrence of
`d` in `l` at index `off` or later. -/
def findFrom (l : List Nat) (d off : Nat) : Option Nat :=
  strFindAux d (l.drop off) off

/-- An unreliable `enqueueData` that returns normally consumes exactly one
event of the read script (the single `read(2)` call of unreliable mode). -/
theorem enqueueData_false_rest_lt (c : Connection) (n : Nat)
    (script : List ReadEvent) (c' : Connection) (r : Nat)
    (rest : List ReadEvent) :
    (c.enqueueData false n script).1 = .ok c' r rest →
    rest.length < script.length := by
  intro h
  unfold Connection.enqueueData at h
  by_cases hn : n = 0
  · simp [hn] at h
  by_cases hv : c.fdValid = false
  · simp [hn, hv] at h
  have hrl : 0 < min n MAX_BYTES := by
    have : 0 < n := Nat.pos_of_ne_zero hn
    simp [MAX_BYTES]; omega
  cases script with
  | nil =>
    simp [hn, hv, hrl, enqueueLoop] at h
  | cons ev tail =>
    cases ev with
    | err => simp [hn, hv, hrl, enqueueLoop] at h
    | ok bs =>
      simp only [hn, hv, hrl, enqueueLoop, if_false, if_true, ite_true,
        ite_false, Bool.false_eq_true, false_and, reduceIte] at h
      simp [hn, hv, hrl, enqueueLoop] at h
      obtain ⟨-, -, hrest⟩ := h
      subst hrest
      simp

/-- `Connection::readDelim(char delim)` loop (Connection.cpp lines 374-381):
search the buffer for `delim` from `off`; while absent, remember the
current buffer length as the next search offset and call
`this->enqueueData()` (defaults: unreliable, `MAX_BYTES`); once found at
`location`, return `buffer.substr(0, location + 1)` and erase it. -/
def readDelimLoop (c : Connection) (d off : Nat) (script : List ReadEvent) :
    ReadOut :=
  match findFrom c.buffer d off with
  | some location =>
    .ok { c with buffer := c.buffer.drop (location + 1) }
      (c.buffer.take (location + 1)) script
  | none =>
    match h : c.enqueueData false MAX_BYTES script with
    | (.ok c' _ rest, _) => readDelimLoop c' d c.buffer.length rest
    | (.invalidArg c', _) => .invalidArg c'
    | (.reset c' rest, _) => .reset c' rest
    | (.blocked, _) => .blocked
termination_by script.length
decreasing_by
  exact enqueueData_false_rest_lt _ _ _ _ _ _ (by rw [h])

/-- `Connection::readDelim(char delim)` (Connection.cpp lines 373-387). -/
def Connection.readDelim (c : Connection) (d : Nat)
    (script : List ReadEvent) : ReadOut :=
  readDelimLoop c d 0 script

/-- The port-range check shared by the `Connection` and `Socket`
constructors: `port < 1 || port > 65535`. -/
def portOutOfRange (port : Int) : Bool :=
  decide (port < 1) || decide (port > 65535)

/-- `Connection::Connection(const std::string& addr, int port)` (outbound,
Connection.cpp lines 34-74).  `resolve` is the outcome of
`parseAddress(addr)` (throwing `InvalidArgument` on failure), `connectOk`
whether the `connect(2)` call succeeds.  The second component is the trace
of system calls performed. -/
def connectionOutbound (resolve : Except Unit AddrStorage) (port : Int)
    (connectOk : Bool) : Except CFErr Connection × List Sys :=
  if portOutOfRange port then (.error .invalidArgument, [])
  else
    match resolve with
    | .error _ => (.error .invalidArgument, [.parseCall])
    | .ok address =>
      if address.ss_family = .inet ∨ address.ss_family = .inet6 then
        let fam := if address.ss_family = .inet then SocketFamily.IPv4
          else SocketFamily.IPv6
        if connectOk then
          (.ok { buffer := [], fdValid := true, family := fam,
                 flow := .Outbound, listen := "",
                 remote := address.canonical, port := port },
           [.parseCall, .socketCall, .connectCall])
        else
          (.error .unexpectedError,
           [.parseCall, .socketCall, .connectCall, .closeCall])
      else (.error .invalidArgument, [.parseCall])

/-- `Connection::Connection(laddr, raddr, port, socket)` (inbound,
Connection.cpp lines 87-130).  `laddress`/`raddress` are the outcomes of
`parseAddress` on the two addresses, `sockValid` the validity of the
provided descriptor.  Checks run in source order: port range, descriptor
validity, then the family agreement check; on success the canonical texts
of both addresses are stored and the family is the common one. -/
def connectionInbound (laddress raddress : AddrStorage) (port : Int)
    (sockValid : Bool) : Except CFErr Connection :=
  if portOutOfRange port then .error .invalidArgument
  else if sockValid = false then .error .invalidArgument
  else if laddress.ss_family = raddress.ss_family ∧
      (laddress.ss_family = .inet ∨ laddress.ss_family = .inet6) then
    .ok { buffer := [], fdValid := sockValid,
          family := if laddress.ss_family = .inet then SocketFamily.IPv4
            else SocketFamily.IPv6,
          flow := .Inbound, listen := laddress.canonical,
          remote := raddress.canonical, port := port }
  else .error .invalidArgument

/-- State of a `Socket` (listener) object (Socket.hpp). -/
structure Socket where
  host    : String
  port    : Int
  family  : SocketFamily
  fdValid : Bool
  deriving DecidableEq, Repr

/-- `Socket::Socket(const std::string& addr, int port)` (Socket.cpp lines
31-75): port-range check first, then `parseAddress`, family dispatch,
`socket(2)`, `bind(2)` (on failure: close and `UnexpectedError`), then
`setsockopt(SO_REUSEADDR)` and `listen(2)`.  The second component is the
trace of system calls performed. -/
def socketNew (resolve : Except Unit AddrStorage) (port : Int)
    (bindOk : Bool) : Except CFErr Socket × List Sys :=
  if portOutOfRange port then (.error .invalidArgument, [])
  else
    match resolve with
    | .error _ => (.error .invalidArgument, [.parseCall])
    | .ok address =>
      if address.ss_family = .inet ∨ address.ss_family = .inet6 then
        let fam := if address.ss_family = .inet then SocketFamily.IPv4
          else SocketFamily.IPv6
        if bindOk then
          (.ok { host := address.canonical, port := port, family := fam,
                 fdValid := true },
           [.parseCall, .socketCall, .bindCall, .sockoptCall, .listenCall])
        else
          (.error .unexpectedError,
           [.parseCall, .socketCall, .bindCall, .closeCall])
      else (.error .invalidArgument, [.parseCall])


/-- If the enqueue loop completes normally, the bytes delivered by the
`read(2)` calls were appended to the tail of the buffer, and the remaining
target accounts exactly for the bytes appended. -/
theorem enqueueLoop_done_append :
    ∀ (script : List ReadEvent) (reliable : Bool) (c : Connection) (rl : Nat)
      (c' : Connection) (rem : Nat) (rest : List ReadEvent),
      (enqueueLoop reliable c rl script).1 = .done c' rem rest →
      ∃ app, c'.buffer = c.buffer ++ app ∧ app.length = rl - rem ∧ rem ≤ rl := by
  intro script
  induction script with
  | nil =>
    intro reliable c rl c' rem rest h
    simp [enqueueLoop] at h
  | cons ev tail ih =>
    intro reliable c rl c' rem rest h
    cases ev with
    | err => simp [enqueueLoop] at h
    | ok bs =>
      simp only [enqueueLoop] at h
      have hd : (bs.take (min rl MAX_BYTES)).length ≤ rl := by
        rw [List.length_take]
        omega
      by_cases hcond : reliable = true ∧ 0 < rl - (bs.take (min rl MAX_BYTES)).length
      · rw [if_pos hcond] at h
        obtain ⟨app₁, hbuf, hlen, hrem⟩ := ih reliable _ _ _ _ _ h
        refine ⟨bs.take (min rl MAX_BYTES) ++ app₁, ?_, ?_, ?_⟩
        · simp only [List.append_assoc] at hbuf ⊢
          exact hbuf
        · rw [List.length_append, hlen]
          omega
        · omega
      · rw [if_neg hcond] at h
        obtain ⟨hc, hrem, hrest⟩ := LoopOut.done.inj h
        refine ⟨bs.take (min rl MAX_BYTES), ?_, ?_, ?_⟩
        · rw [← hc]
        · omega
        · omega

/-- In reliable mode the enqueue loop completes normally only when the
remaining target has been driven to zero. -/
theorem enqueueLoop_done_rem_zero :
    ∀ (script : List ReadEvent) (reliable : Bool) (c : Connection) (rl : Nat)
      (c' : Connection) (rem : Nat) (rest : List ReadEvent),
      reliable = true →
      (enqueueLoop reliable c rl script).1 = .done c' rem rest → rem = 0 := by
  intro script
  induction script with
  | nil =>
    intro reliable c rl c' rem rest hrel h
    simp [enqueueLoop] at h
  | cons ev tail ih =>
    intro reliable c rl c' rem rest hrel h
    cases ev with
    | err => simp [enqueueLoop] at h
    | ok bs =>
      simp only [enqueueLoop] at h
      by_cases hcond : reliable = true ∧ 0 < rl - (bs.take (min rl MAX_BYTES)).length
      · rw [if_pos hcond] at h
        exact ih reliable _ _ _ _ _ hrel h
      · rw [if_neg hcond] at h
        obtain ⟨-, hrem, -⟩ := LoopOut.done.inj h
        rw [hrel] at hcond
        simp only [true_and, not_lt, Nat.le_zero] at hcond
        omega

/-- Every `read(2)` request issued by the enqueue loop asks for a positive
byte count of at most `MAX_BYTES`. -/
theorem enqueueLoop_reqs_bound :
    ∀ (script : List ReadEvent) (reliable : Bool) (c : Connection) (rl : Nat),
      0 < rl → ∀ q ∈ (enqueueLoop reliable c rl script).2,
      0 < q ∧ q ≤ MAX_BYTES := by
  intro script
  induction script with
  | nil =>
    intro reliable c rl hrl q hq
    simp [enqueueLoop] at hq
    constructor
    · have : 0 < MAX_BYTES := by simp [MAX_BYTES]
      omega
    · omega
  | cons ev tail ih =>
    intro reliable c rl hrl q hq
    have hM : 0 < MAX_BYTES := by simp [MAX_BYTES]
    cases ev with
    | err =>
      simp [enqueueLoop] at hq
      constructor
      · omega
      · omega
    | ok bs =>
      simp only [enqueueLoop] at hq
      by_cases hcond : reliable = true ∧ 0 < rl - (bs.take (min rl MAX_BYTES)).length
      · rw [if_pos hcond] at hq
        simp only [List.mem_cons] at hq
        rcases hq with hq | hq
        · constructor
          · omega
          · omega
        · exact ih reliable _ _ hcond.2 q hq
      · rw [if_neg hcond] at hq
        simp only [List.mem_singleton] at hq
        constructor
        · omega
        · omega

/-- In unreliable mode the enqueue loop issues exactly one `read(2)` call,
requesting `min rl MAX_BYTES` bytes. -/
theorem enqueueLoop_false_reqs :
    ∀ (script : List ReadEvent) (c : Connection) (rl : Nat),
      (enqueueLoop false c rl script).2 = [min rl MAX_BYTES] := by
  intro script c rl
  cases script with
  | nil => simp [enqueueLoop]
  | cons ev tail =>
    cases ev with
    | err => simp [enqueueLoop]
    | ok bs => simp [enqueueLoop]

/-- If the enqueue loop aborts with a reset, the descriptor of the
resulting state is closed and the buffer has only been appended to. -/
theorem enqueueLoop_reset_spec :
    ∀ (script : List ReadEvent) (reliable : Bool) (c : Connection) (rl : Nat)
      (c' : Connection) (rest : List ReadEvent),
      (enqueueLoop reliable c rl script).1 = .reset c' rest →
      ∃ app, c'.buffer = c.buffer ++ app ∧ c'.fdValid = false := by
  intro script
  induction script with
  | nil =>
    intro reliable c rl c' rest h
    simp [enqueueLoop] at h
  | cons ev tail ih =>
    intro reliable c rl c' rest h
    cases ev with
    | err =>
      simp only [enqueueLoop] at h
      obtain ⟨hc, -⟩ := LoopOut.reset.inj h
      refine ⟨[], ?_, ?_⟩
      · rw [← hc]; simp
      · rw [← hc]
    | ok bs =>
      simp only [enqueueLoop] at h
      by_cases hcond : reliable = true ∧ 0 < rl - (bs.take (min rl MAX_BYTES)).length
      · rw [if_pos hcond] at h
        obtain ⟨app₁, hbuf, hfd⟩ := ih reliable _ _ _ _ h
        refine ⟨bs.take (min rl MAX_BYTES) ++ app₁, ?_, hfd⟩
        simp only [List.append_assoc] at hbuf ⊢
        exact hbuf
      · rw [if_neg hcond] at h
        simp at h

/-- A normal completion of `enqueueData` appends exactly the returned
number of bytes to the tail of the buffer. -/
theorem enqueueData_ok_append (c : Connection) (reliable : Bool) (n : Nat)
    (script : List ReadEvent) (c' : Connection) (r : Nat)
    (rest : List ReadEvent) :
    (c.enqueueData reliable n script).1 = .ok c' r rest →
    ∃ app, c'.buffer = c.buffer ++ app ∧ r = app.length := by
  intro h
  by_cases hn : n = 0
  · simp [Connection.enqueueData, hn] at h
  by_cases hv : c.fdValid = false
  · simp [Connection.enqueueData, hn, hv] at h
  have hrlpos : 0 < (if reliable then n else min n MAX_BYTES) := by
    have hM : 0 < MAX_BYTES := by simp [MAX_BYTES]
    cases reliable <;> simp <;> omega
  rcases hE : enqueueLoop reliable c
      (if reliable then n else min n MAX_BYTES) script with ⟨out, reqs⟩
  simp only [Connection.enqueueData, if_neg hn, if_neg hv, if_pos hrlpos,
    hE] at h
  cases out with
  | done c₁ rem rest₁ =>
    simp only [EnqOut.ok.injEq] at h
    obtain ⟨hc, hr, hrest⟩ := h
    obtain ⟨app, happ, hlen, -⟩ :=
      enqueueLoop_done_append script reliable c _ c₁ rem rest₁ (by rw [hE])
    subst hc
    exact ⟨app, happ, by omega⟩
  | reset c₁ rest₁ => simp at h
  | blocked => simp at h

/-- A reset outcome of `enqueueData` leaves the buffer only appended-to and
the descriptor closed. -/
theorem enqueueData_reset_append (c : Connection) (reliable : Bool) (n : Nat)
    (script : List ReadEvent) (c' : Connection) (rest : List ReadEvent) :
    (c.enqueueData reliable n script).1 = .reset c' rest →
    ∃ app, c'.buffer = c.buffer ++ app ∧ c'.fdValid = false := by
  intro h
  by_cases hn : n = 0
  · simp [Connection.enqueueData, hn] at h
  by_cases hv : c.fdValid = false
  · simp [Connection.enqueueData, hn, hv] at h
  have hrlpos : 0 < (if reliable then n else min n MAX_BYTES) := by
    have hM : 0 < MAX_BYTES := by simp [MAX_BYTES]
    cases reliable <;> simp <;> omega
  rcases hE : enqueueLoop reliable c
      (if reliable then n else min n MAX_BYTES) script with ⟨out, reqs⟩
  simp only [Connection.enqueueData, if_neg hn, if_neg hv, if_pos hrlpos,
    hE] at h
  cases out with
  | done c₁ rem rest₁ => simp at h
  | reset c₁ rest₁ =>
    simp only [EnqOut.reset.injEq] at h
    obtain ⟨hc, hrest⟩ := h
    subst hc
    exact enqueueLoop_reset_spec script reliable c _ c₁ rest₁ (by rw [hE])
  | blocked => simp at h

/-- When the next read event is an error return, `enqueueData` (in either
mode) closes the descriptor and aborts with the reset error, the buffer
untouched. -/
theorem enqueueData_err_head (c : Connection) (reliable : Bool) (n : Nat)
    (tail : List ReadEvent) (hv : c.fdValid = true) (hn : 0 < n) :
    (c.enqueueData reliable n (.err :: tail)).1
      = .reset { c with fdValid := false } tail := by
  have hn' : ¬ n = 0 := by omega
  have hv' : ¬ c.fdValid = false := by simp [hv]
  have hrlpos : 0 < (if reliable then n else min n MAX_BYTES) := by
    have hM : 0 < MAX_BYTES := by simp [MAX_BYTES]
    cases reliable <;> simp <;> omega
  simp [Connection.enqueueData, hn', hv', hrlpos, enqueueLoop]

/-- `Connection::read` with enough buffered data performs no I/O at all:
no `enqueueData` call is recorded, the script is untouched, and the first
`request_length` buffered bytes are consumed and returned. -/
theorem read_of_le (c : Connection) (reliable : Bool) (n : Nat)
    (script : List ReadEvent) (h : n ≤ c.buffer.length) :
    c.read reliable n script =
      (.ok { c with buffer := c.buffer.drop n } (c.buffer.take n) script, []) := by
  have hnotlt : ¬ c.buffer.length < n := by omega
  have hmin : min n c.buffer.length = n := Nat.min_eq_left h
  simp [Connection.read, hnotlt, readFinish, hmin]

/-- A normal completion of `Connection::read` returns data taken from the
head of the post-enqueue buffer (the original buffer plus appended bytes),
of length `min request_length (buffer length)`, and removes it. -/
theorem read_ok_spec (c : Connection) (reliable : Bool) (n : Nat)
    (script : List ReadEvent) (c' : Connection) (data : List Nat)
    (rest : List ReadEvent) (tr : List (Bool × Nat)) :
    c.read reliable n script = (.ok c' data rest, tr) →
    ∃ app, data ++ c'.buffer = c.buffer ++ app
      ∧ data.length = min n (c.buffer.length + app.length) := by
  intro h
  by_cases hbl : c.buffer.length < n
  · have hrem : 0 < (if reliable then n - c.buffer.length else MAX_BYTES) := by
      have hM : 0 < MAX_BYTES := by simp [MAX_BYTES]
      cases reliable <;> simp <;> omega
    rcases hE : c.enqueueData reliable
        (if reliable then n - c.buffer.length else MAX_BYTES) script
        with ⟨eout, etr⟩
    simp only [Connection.read, if_pos hbl, if_pos hrem, hE] at h
    cases eout with
    | ok c₁ r rest₁ =>
      simp only [readFinish, Prod.mk.injEq, ReadOut.ok.injEq] at h
      obtain ⟨⟨hc, hdata, hrest⟩, -⟩ := h
      obtain ⟨app, happ, -⟩ :=
        enqueueData_ok_append c reliable _ script c₁ r rest₁ (by rw [hE])
      refine ⟨app, ?_, ?_⟩
      · rw [← hc, ← hdata]
        simp only [List.take_append_drop]
        rw [happ]
      · rw [← hdata, List.length_take, happ]
        simp only [List.length_append]
        omega
    | invalidArg c₁ => simp at h
    | reset c₁ rest₁ => simp at h
    | blocked => simp at h
  · simp only [Connection.read, if_neg hbl, readFinish, Prod.mk.injEq,
      ReadOut.ok.injEq] at h
    obtain ⟨⟨hc, hdata, hrest⟩, -⟩ := h
    refine ⟨[], ?_, ?_⟩
    · rw [← hc, ← hdata]
      simp only [List.take_append_drop, List.append_nil]
    · rw [← hdata, List.length_take]
      simp only [List.length_nil, Nat.add_zero]
      omega

/-- A reset outcome of `Connection::read` comes from the inner
`enqueueData` call: the buffer has only been appended to and the
descriptor is closed. -/
theorem read_reset_spec (c : Connection) (reliable : Bool) (n : Nat)
    (script : List ReadEvent) (c' : Connection) (rest : List ReadEvent)
    (tr : List (Bool × Nat)) :
    c.read reliable n script = (.reset c' rest, tr) →
    ∃ app, c'.buffer = c.buffer ++ app ∧ c'.fdValid = false := by
  intro h
  by_cases hbl : c.buffer.length < n
  · have hrem : 0 < (if reliable then n - c.buffer.length else MAX_BYTES) := by
      have hM : 0 < MAX_BYTES := by simp [MAX_BYTES]
      cases reliable <;> simp <;> omega
    rcases hE : c.enqueueData reliable
        (if reliable then n - c.buffer.length else MAX_BYTES) script
        with ⟨eout, etr⟩
    simp only [Connection.read, if_pos hbl, if_pos hrem, hE] at h
    cases eout with
    | ok c₁ r rest₁ => simp [readFinish] at h
    | invalidArg c₁ => simp at h
    | reset c₁ rest₁ =>
      simp only [Prod.mk.injEq, ReadOut.reset.injEq] at h
      obtain ⟨⟨hc, hrest⟩, -⟩ := h
      subst hc
      exact enqueueData_reset_append c reliable _ script c₁ rest₁ (by rw [hE])
    | blocked => simp at h
  · simp [Connection.read, if_neg hbl, readFinish] at h

/-- If the delimiter occurs in the searched list, `strFindAux` finds an
index. -/
theorem strFindAux_of_mem (d : Nat) :
    ∀ (xs : List Nat) (i : Nat), d ∈ xs → ∃ j, strFindAux d xs i = some j := by
  intro xs
  induction xs with
  | nil => intro i h; simp at h
  | cons b rest ih =>
    intro i h
    by_cases hb : b = d
    · exact ⟨i, by simp [strFindAux, hb]⟩
    · have hmem : d ∈ rest := by
        rcases List.mem_cons.mp h with h1 | h1
        · exact absurd h1.symm hb
        · exact h1
      obtain ⟨j, hj⟩ := ih (i + 1) hmem
      exact ⟨j, by simp [strFindAux, hb, hj]⟩

/-- A successful `strFindAux` search returns an absolute index at or past
the start index, and the element there is the delimiter. -/
theorem strFindAux_some_spec (d : Nat) :
    ∀ (xs : List Nat) (i j : Nat), strFindAux d xs i = some j →
      ∃ k, j = i + k ∧ xs[k]? = some d := by
  intro xs
  induction xs with
  | nil => intro i j h; simp [strFindAux] at h
  | cons b rest ih =>
    intro i j h
    by_cases hb : b = d
    · simp only [strFindAux, if_pos hb, Option.some.injEq] at h
      exact ⟨0, by omega, by simp [hb]⟩
    · simp only [strFindAux, if_neg hb] at h
      obtain ⟨k, hjk, hkd⟩ := ih (i + 1) j h
      exact ⟨k + 1, by omega, by simpa using hkd⟩

/-- A successful `find` from `off` reports an index at or past `off` whose
element is the delimiter. -/
theorem findFrom_some_spec (l : List Nat) (d off loc : Nat)
    (h : findFrom l d off = some loc) :
    off ≤ loc ∧ l[loc]? = some d := by
  obtain ⟨k, hk, hget⟩ := strFindAux_some_spec d (l.drop off) off loc h
  constructor
  · omega
  · rw [List.getElem?_drop] at hget
    rw [hk]
    exact hget

/-- A delimiter contained in the list is found by a `find` from offset 0. -/
theorem findFrom_of_mem (l : List Nat) (d : Nat) (h : d ∈ l) :
    ∃ loc, findFrom l d 0 = some loc := by
  simpa [findFrom] using strFindAux_of_mem d l 0 h

/-- The prefix of a list up to and including index `i` ends with the
element at index `i`. -/
theorem getLast?_take_succ (d : Nat) :
    ∀ (l : List Nat) (i : Nat), l[i]? = some d →
      (l.take (i + 1)).getLast? = some d := by
  intro l
  induction l with
  | nil => intro i h; simp at h
  | cons a t ih =>
    intro i h
    cases i with
    | zero =>
      simp only [List.getElem?_cons_zero, Option.some.injEq] at h
      simp [h]
    | succ i =>
      simp only [List.getElem?_cons_succ] at h
      cases t with
      | nil => simp at h
      | cons b t' =>
        rw [List.take_succ_cons, List.take_succ_cons, List.getLast?_cons_cons]
        rw [← List.take_succ_cons]
        exact ih i h

/-- `enqueueData` against an exhausted read script either rejects its
arguments or blocks; it never completes and never resets. -/
theorem enqueueData_nil (c : Connection) (reliable : Bool) (n : Nat) :
    (c.enqueueData reliable n ([] : List ReadEvent)).1 = .invalidArg c ∨
    (c.enqueueData reliable n ([] : List ReadEvent)).1 = .blocked := by
  by_cases hn : n = 0
  · left; simp [Connection.enqueueData, hn]
  by_cases hv : c.fdValid = false
  · left; simp [Connection.enqueueData, hn, hv]
  · right
    have hrlpos : 0 < (if reliable then n else min n MAX_BYTES) := by
      have hM : 0 < MAX_BYTES := by simp [MAX_BYTES]
      cases reliable <;> simp <;> omega
    simp [Connection.enqueueData, hn, hv, hrlpos, enqueueLoop]

/-- Unfolding of `readDelimLoop` when the delimiter is already in the
buffer: the prefix up to and including it is extracted, with no I/O (the
read script is returned untouched). -/
theorem readDelimLoop_found (c : Connection) (d off loc : Nat)
    (script : List ReadEvent) (h : findFrom c.buffer d off = some loc) :
    readDelimLoop c d off script =
      .ok { c with buffer := c.buffer.drop (loc + 1) }
        (c.buffer.take (loc + 1)) script := by
  rw [readDelimLoop]
  simp [h]

/-- Unfolding of `readDelimLoop` when the delimiter is absent from the
searched region: one unreliable `enqueueData` call is made and the loop
continues (or the enqueue failure propagates). -/
theorem readDelimLoop_not_found (c : Connection) (d off : Nat)
    (script : List ReadEvent) (h : findFrom c.buffer d off = none) :
    readDelimLoop c d off script =
      match c.enqueueData false MAX_BYTES script with
      | (.ok c' _ rest, _) => readDelimLoop c' d c.buffer.length rest
      | (.invalidArg c', _) => .invalidArg c'
      | (.reset c' rest, _) => .reset c' rest
      | (.blocked, _) => .blocked := by
  rw [readDelimLoop]
  simp only [h]
  rcases hE : c.enqueueData false MAX_BYTES script with ⟨eo, et⟩
  cases eo <;> simp

/-- When the delimiter-read loop returns normally, the returned data is a
head-prefix of the (possibly appended-to) buffer and ends with the
delimiter; when it aborts with a reset, the buffer of the resulting state
has only been appended to and its descriptor is closed. -/
theorem readDelimLoop_spec (d : Nat) :
    ∀ (fuel : Nat) (script : List ReadEvent), script.length ≤ fuel →
    ∀ (c : Connection) (off : Nat),
      (∀ c' data rest, readDelimLoop c d off script = .ok c' data rest →
        (∃ app, data ++ c'.buffer = c.buffer ++ app) ∧ data.getLast? = some d)
      ∧ (∀ c' rest, readDelimLoop c d off script = .reset c' rest →
        ∃ app, c'.buffer = c.buffer ++ app ∧ c'.fdValid = false) := by
  intro fuel
  induction fuel with
  | zero =>
    intro script hlen c off
    have hs : script = [] := List.length_eq_zero.mp (Nat.le_zero.mp hlen)
    subst hs
    constructor
    · intro c' data rest h
      cases hfind : findFrom c.buffer d off with
      | some loc =>
        rw [readDelimLoop_found c d off loc [] hfind] at h
        obtain ⟨hc, hdata, -⟩ := ReadOut.ok.inj h
        constructor
        · refine ⟨[], ?_⟩
          rw [← hc, ← hdata]
          simp [List.take_append_drop]
        · rw [← hdata]
          obtain ⟨-, hget⟩ := findFrom_some_spec c.buffer d off loc hfind
          exact getLast?_take_succ d c.buffer loc hget
      | none =>
        rw [readDelimLoop_not_found c d off [] hfind] at h
        rcases hE : c.enqueueData false MAX_BYTES ([] : List ReadEvent)
            with ⟨eo, et⟩
        rw [hE] at h
        rcases enqueueData_nil c false MAX_BYTES with hnil | hnil <;>
          rw [hE] at hnil <;> simp at hnil <;> rw [hnil] at h <;> simp at h
    · intro c' rest h
      cases hfind : findFrom c.buffer d off with
      | some loc =>
        rw [readDelimLoop_found c d off loc [] hfind] at h
        simp at h
      | none =>
        rw [readDelimLoop_not_found c d off [] hfind] at h
        rcases hE : c.enqueueData false MAX_BYTES ([] : List ReadEvent)
            with ⟨eo, et⟩
        rw [hE] at h
        rcases enqueueData_nil c false MAX_BYTES with hnil | hnil <;>
          rw [hE] at hnil <;> simp at hnil <;> rw [hnil] at h <;> simp at h
  | succ fuel ih =>
    intro script hlen c off
    constructor
    · intro c' data rest h
      cases hfind : findFrom c.buffer d off with
      | some loc =>
        rw [readDelimLoop_found c d off loc script hfind] at h
        obtain ⟨hc, hdata, -⟩ := ReadOut.ok.inj h
        constructor
        · refine ⟨[], ?_⟩
          rw [← hc, ← hdata]
          simp [List.take_append_drop]
        · rw [← hdata]
          obtain ⟨-, hget⟩ := findFrom_some_spec c.buffer d off loc hfind
          exact getLast?_take_succ d c.buffer loc hget
      | none =>
        rw [readDelimLoop_not_found c d off script hfind] at h
        rcases hE : c.enqueueData false MAX_BYTES script with ⟨eo, et⟩
        rw [hE] at h
        cases eo with
        | ok c₁ r rest₁ =>
          have hlt : rest₁.length < script.length :=
            enqueueData_false_rest_lt c MAX_BYTES script c₁ r rest₁
              (by rw [hE])
          obtain ⟨hok, -⟩ := ih rest₁ (by omega) c₁ c.buffer.length
          obtain ⟨⟨app₁, happ₁⟩, hlast⟩ := hok c' data rest h
          obtain ⟨app₀, happ₀, -⟩ :=
            enqueueData_ok_append c false MAX_BYTES script c₁ r rest₁
              (by rw [hE])
          refine ⟨⟨app₀ ++ app₁, ?_⟩, hlast⟩
          rw [happ₁, happ₀, List.append_assoc]
        | invalidArg c₁ => simp at h
        | reset c₁ rest₁ => simp at h
        | blocked => simp at h
    · intro c' rest h
      cases hfind : findFrom c.buffer d off with
      | some loc =>
        rw [readDelimLoop_found c d off loc script hfind] at h
        simp at h
      | none =>
        rw [readDelimLoop_not_found c d off script hfind] at h
        rcases hE : c.enqueueData false MAX_BYTES script with ⟨eo, et⟩
        rw [hE] at h
        cases eo with
        | ok c₁ r rest₁ =>
          have hlt : rest₁.length < script.length :=
            enqueueData_false_rest_lt c MAX_BYTES script c₁ r rest₁
              (by rw [hE])
          obtain ⟨-, hreset⟩ := ih rest₁ (by omega) c₁ c.buffer.length
          obtain ⟨app₁, happ₁, hfd⟩ := hreset c' rest h
          obtain ⟨app₀, happ₀, -⟩ :=
            enqueueData_ok_append c false MAX_BYTES script c₁ r rest₁
              (by rw [hE])
          refine ⟨app₀ ++ app₁, ?_, hfd⟩
          rw [happ₁, happ₀, List.append_assoc]
        | invalidArg c₁ => simp at h
        | reset c₁ rest₁ =>
          obtain ⟨hc, hrest⟩ := ReadOut.reset.inj h
          subst hc
          exact enqueueData_reset_append c false MAX_BYTES script c₁ rest₁
            (by rw [hE])
        | blocked => simp at h

/-- Example connection literal with the Connection.hpp field defaults
(family IPv4, flow Inbound, empty listen, remote "0.0.0.0", port 0), used
to instantiate theorems at concrete states. -/
def connEx (buf : List Nat) (v : Bool) : Connection :=
  { buffer := buf, fdValid := v, family := .IPv4, flow := .Inbound,
    listen := "", remote := "0.0.0.0", port := 0 }

/-- C1 (counterexample): a peer that closes its write side makes `read(2)`
return 0 (EOF).  The code treats `return_val >= 0` as success, so an
unreliable `enqueueData` on a valid Stream whose next read reports EOF
returns normally with 0 bytes — no UnexpectedError is raised, the
descriptor is not closed, and `valid()` still reports true, contradicting
the claim for the EOF half of its premise. -/
theorem c1_eof_counterexample :
    Connection.enqueueData (connEx [] true) false 5 [ReadEvent.ok []]
      = (.ok (connEx [] true) 0 [], [5])
    ∧ Connection.valid (connEx [] true) = true := by
  constructor
  · rfl
  · rfl

/-- C1 (amended): when the underlying `read(2)` reports an *error*
(negative return), the next `enqueueData` or `read` call — in either
reliable or unreliable mode — fails with UnexpectedError ("connection
reset by peer"), the descriptor is closed as part of raising the error
(the error state carries `fdValid := false`), and `valid()` on the
resulting Stream reports false.  (On EOF, i.e. `read(2)` returning 0, no
error is raised: unreliable calls return normally with 0 bytes and
reliable calls keep looping.) -/
theorem c1_read_error_resets (c : Connection) (reliable : Bool) (n : Nat)
    (tail : List ReadEvent) (hv : c.fdValid = true) (hn : 0 < n) :
    (c.enqueueData reliable n (.err :: tail)).1
      = .reset { c with fdValid := false } tail
    ∧ (c.buffer.length < n →
        (c.read reliable n (.err :: tail)).1
          = .reset { c with fdValid := false } tail)
    ∧ Connection.valid { c with fdValid := false } = false := by
  refine ⟨enqueueData_err_head c reliable n tail hv hn, ?_, rfl⟩
  intro hbl
  have hrem : 0 < (if reliable then n - c.buffer.length else MAX_BYTES) := by
    have hM : 0 < MAX_BYTES := by simp [MAX_BYTES]
    cases reliable <;> simp <;> omega
  have he := enqueueData_err_head c reliable
    (if reliable then n - c.buffer.length else MAX_BYTES) tail hv hrem
  rcases hE : c.enqueueData reliable
      (if reliable then n - c.buffer.length else MAX_BYTES) (.err :: tail)
      with ⟨eo, et⟩
  rw [hE] at he
  simp only at he
  simp only [Connection.read, if_pos hbl, if_pos hrem, hE]
  rw [he]

/-- C2: reliable `enqueueData` issues `read(2)` calls each requesting at
most `MAX_BYTES` (and a positive count), completes normally only having
appended exactly `request_length` bytes to the tail of the buffer with
return value `request_length`, and (on a valid Stream with a positive
request) never fails with InvalidArgument — its only outcomes are normal
completion, the reset error, or continued blocking. -/
theorem c2_enqueueData_reliable (c : Connection) (n : Nat)
    (script : List ReadEvent) (hv : c.fdValid = true) (hn : 0 < n) :
    (∀ q ∈ (c.enqueueData true n script).2, 0 < q ∧ q ≤ MAX_BYTES)
    ∧ (∀ c' r rest, (c.enqueueData true n script).1 = .ok c' r rest →
        r = n ∧ ∃ app, c'.buffer = c.buffer ++ app ∧ app.length = n)
    ∧ (∀ c₀, (c.enqueueData true n script).1 ≠ .invalidArg c₀) := by
  have hn' : ¬ n = 0 := by omega
  have hv' : ¬ c.fdValid = false := by simp [hv]
  have hmain : c.enqueueData true n script =
      (match enqueueLoop true c n script with
       | (.done c' rem rest, reqs) => (.ok c' (n - rem) rest, reqs)
       | (.reset c' rest, reqs) => (.reset c' rest, reqs)
       | (.blocked, reqs) => (.blocked, reqs)) := by
    simp [Connection.enqueueData, hn', hv', hn]
  rcases hE : enqueueLoop true c n script with ⟨out, reqs⟩
  refine ⟨?_, ?_, ?_⟩
  · intro q hq
    have h2 : (c.enqueueData true n script).2 = reqs := by
      rw [hmain, hE]; cases out <;> rfl
    rw [h2] at hq
    exact enqueueLoop_reqs_bound script true c n hn q (by rw [hE]; exact hq)
  · intro c' r rest h
    rw [hmain, hE] at h
    cases out with
    | done c₁ rem rest₁ =>
      simp only [EnqOut.ok.injEq] at h
      obtain ⟨hc, hr, hrest⟩ := h
      have hrem : rem = 0 :=
        enqueueLoop_done_rem_zero script true c n c₁ rem rest₁ rfl
          (by rw [hE])
      obtain ⟨app, happ, hlen, -⟩ :=
        enqueueLoop_done_append script true c n c₁ rem rest₁ (by rw [hE])
      subst hc
      exact ⟨by omega, app, happ, by omega⟩
    | reset c₁ rest₁ => simp at h
    | blocked => simp at h
  · intro c₀ h
    rw [hmain, hE] at h
    cases out <;> simp at h

/-- C3: unreliable `enqueueData` on a valid Stream with a positive request
issues exactly one underlying `read(2)` call, of exactly
`min request_length MAX_BYTES` bytes (its request trace is that singleton,
so no second read is ever issued), appends whatever that read delivered to
the tail of the buffer, and on normal completion returns the number of
bytes appended, which is at most `min request_length MAX_BYTES`. -/
theorem c3_enqueueData_unreliable (c : Connection) (n : Nat)
    (script : List ReadEvent) (hv : c.fdValid = true) (hn : 0 < n) :
    (c.enqueueData false n script).2 = [min n MAX_BYTES]
    ∧ (∀ c' r rest, (c.enqueueData false n script).1 = .ok c' r rest →
        ∃ app, c'.buffer = c.buffer ++ app ∧ r = app.length
          ∧ r ≤ min n MAX_BYTES) := by
  have hn' : ¬ n = 0 := by omega
  have hv' : ¬ c.fdValid = false := by simp [hv]
  have hM : 0 < MAX_BYTES := by simp [MAX_BYTES]
  have hrlpos : 0 < min n MAX_BYTES := by omega
  have hmm : min (min n MAX_BYTES) MAX_BYTES = min n MAX_BYTES := by omega
  have hmain : c.enqueueData false n script =
      (match enqueueLoop false c (min n MAX_BYTES) script with
       | (.done c' rem rest, reqs) => (.ok c' (min n MAX_BYTES - rem) rest, reqs)
       | (.reset c' rest, reqs) => (.reset c' rest, reqs)
       | (.blocked, reqs) => (.blocked, reqs)) := by
    simp [Connection.enqueueData, hn', hv', hrlpos]
  constructor
  · have htr := enqueueLoop_false_reqs script c (min n MAX_BYTES)
    rw [hmm] at htr
    rw [hmain]
    rcases hE : enqueueLoop false c (min n MAX_BYTES) script with ⟨out, reqs⟩
    rw [hE] at htr
    cases out <;> simpa using htr
  · intro c' r rest h
    rw [hmain] at h
    cases script with
    | nil => simp [enqueueLoop] at h
    | cons ev tail =>
      cases ev with
      | err => simp [enqueueLoop] at h
      | ok bs =>
        simp only [enqueueLoop] at h
        rw [if_neg (by simp)] at h
        simp only [EnqOut.ok.injEq] at h
        obtain ⟨hc, hr, hrest⟩ := h
        have hd : (bs.take (min (min n MAX_BYTES) MAX_BYTES)).length
            ≤ min n MAX_BYTES := by
          rw [List.length_take]; omega
        refine ⟨bs.take (min (min n MAX_BYTES) MAX_BYTES), ?_, ?_, ?_⟩
        · rw [← hc]
        · omega
        · omega

/-- C4: if the buffer already holds at least `request_length` bytes,
`read` performs no I/O (no `enqueueData` call is recorded and the read
script is untouched) and consumes exactly the first `request_length`
buffered bytes; in every case where `read` returns normally, the returned
data is exactly `min request_length (post-enqueue buffer length)` bytes
taken from the head of the post-enqueue buffer (the original buffer plus
some appended bytes), and exactly those bytes are removed. -/
theorem c4_read_spec (c : Connection) (reliable : Bool) (n : Nat)
    (script : List ReadEvent) :
    (n ≤ c.buffer.length →
      c.read reliable n script =
        (.ok { c with buffer := c.buffer.drop n } (c.buffer.take n) script,
         []))
    ∧ (∀ c' data rest tr, c.read reliable n script = (.ok c' data rest, tr) →
        ∃ app, data ++ c'.buffer = c.buffer ++ app
          ∧ data.length = min n (c.buffer.length + app.length)) :=
  ⟨read_of_le c reliable n script,
   fun c' data rest tr h => read_ok_spec c reliable n script c' data rest tr h⟩

/-- C5: when the delimiter is present in the buffer, `readDelim` performs
no I/O (the read script is untouched) and removes and returns the prefix
of the buffer up to and including the first occurrence of the delimiter
(the index reported by the buffer search from offset 0); and whenever
`readDelim` returns normally — in particular after repeatedly enqueuing in
unreliable mode while the delimiter was absent — the returned data ends
with the delimiter. -/
theorem c5_readDelim_spec (c : Connection) (d : Nat)
    (script : List ReadEvent) :
    (d ∈ c.buffer → ∃ loc, findFrom c.buffer d 0 = some loc ∧
      c.readDelim d script =
        .ok { c with buffer := c.buffer.drop (loc + 1) }
          (c.buffer.take (loc + 1)) script)
    ∧ (∀ c' data rest, c.readDelim d script = .ok c' data rest →
        data.getLast? = some d) := by
  constructor
  · intro hm
    obtain ⟨loc, hloc⟩ := findFrom_of_mem c.buffer d hm
    exact ⟨loc, hloc, readDelimLoop_found c d 0 loc script hloc⟩
  · intro c' data rest h
    obtain ⟨hok, -⟩ :=
      readDelimLoop_spec d script.length script (le_refl _) c 0
    exact (hok c' data rest h).2

/-- C6: when the buffer is short of `request_length`, a reliable `read`
calls `enqueueData` requesting exactly the shortfall
`request_length - buffer length`, while an unreliable `read` calls
`enqueueData` requesting exactly `MAX_BYTES`, independent of the
shortfall. -/
theorem c6_read_shortfall (c : Connection) (n : Nat)
    (script : List ReadEvent) (h : c.buffer.length < n) :
    (c.read true n script).2 = [(true, n - c.buffer.length)]
    ∧ (c.read false n script).2 = [(false, MAX_BYTES)] := by
  have hM : 0 < MAX_BYTES := by simp [MAX_BYTES]
  constructor
  · have hrem : 0 < n - c.buffer.length := by omega
    rcases hE : c.enqueueData true (n - c.buffer.length) script with ⟨eo, et⟩
    cases eo <;> simp [Connection.read, h, hrem, hE]
  · rcases hE : c.enqueueData false MAX_BYTES script with ⟨eo, et⟩
    cases eo <;> simp [Connection.read, h, hM, hE]

/-- C7: every operation preserves the FIFO discipline of the buffer:
`enqueueData` only appends bytes at the tail (on normal completion and on
reset alike), and `read`/`readDelim` only remove bytes from the head —
whatever data they return, prepended to the remaining buffer, equals the
original buffer extended by some appended suffix, so no operation
reorders, modifies, or re-inserts buffered bytes. -/
theorem c7_fifo (c : Connection) (reliable : Bool) (n d : Nat)
    (script : List ReadEvent) :
    (∀ c' r rest, (c.enqueueData reliable n script).1 = .ok c' r rest →
      ∃ app, c'.buffer = c.buffer ++ app)
    ∧ (∀ c' rest, (c.enqueueData reliable n script).1 = .reset c' rest →
      ∃ app, c'.buffer = c.buffer ++ app)
    ∧ (∀ c' data rest tr, c.read reliable n script = (.ok c' data rest, tr) →
      ∃ app, data ++ c'.buffer = c.buffer ++ app)
    ∧ (∀ c' rest tr, c.read reliable n script = (.reset c' rest, tr) →
      ∃ app, c'.buffer = c.buffer ++ app)
    ∧ (∀ c' data rest, c.readDelim d script = .ok c' data rest →
      ∃ app, data ++ c'.buffer = c.buffer ++ app)
    ∧ (∀ c' rest, c.readDelim d script = .reset c' rest →
      ∃ app, c'.buffer = c.buffer ++ app) := by
  refine ⟨?_, ?_, ?_, ?_, ?_, ?_⟩
  · intro c' r rest h
    obtain ⟨app, happ, -⟩ :=
      enqueueData_ok_append c reliable n script c' r rest h
    exact ⟨app, happ⟩
  · intro c' rest h
    obtain ⟨app, happ, -⟩ :=
      enqueueData_reset_append c reliable n script c' rest h
    exact ⟨app, happ⟩
  · intro c' data rest tr h
    obtain ⟨app, happ, -⟩ :=
      read_ok_spec c reliable n script c' data rest tr h
    exact ⟨app, happ⟩
  · intro c' rest tr h
    obtain ⟨app, happ, -⟩ :=
      read_reset_spec c reliable n script c' rest tr h
    exact ⟨app, happ⟩
  · intro c' data rest h
    obtain ⟨hok, -⟩ :=
      readDelimLoop_spec d script.length script (le_refl _) c 0
    exact (hok c' data rest h).1
  · intro c' rest h
    obtain ⟨-, hres⟩ :=
      readDelimLoop_spec d script.length script (le_refl _) c 0
    obtain ⟨app, happ, -⟩ := hres c' rest h
    exact ⟨app, happ⟩

/-- C8: a port outside 1..65535 makes both the outbound `Connection`
constructor and the `Socket` constructor fail with InvalidArgument before
any system call is made (the recorded syscall trace is empty, so no
resource state changed); every port in 1..65535 passes the port check. -/
theorem c8_port_validation (p : Int) (resolve : Except Unit AddrStorage)
    (connectOk bindOk : Bool) :
    ((p < 1 ∨ p > 65535) →
      connectionOutbound resolve p connectOk = (.error .invalidArgument, [])
      ∧ socketNew resolve p bindOk = (.error .invalidArgument, []))
    ∧ (1 ≤ p → p ≤ 65535 → portOutOfRange p = false) := by
  constructor
  · intro hp
    have hgate : portOutOfRange p = true := by
      simp only [portOutOfRange, Bool.or_eq_true, decide_eq_true_eq]
      rcases hp with hp | hp
      · left; exact hp
      · right; exact hp
    constructor <;> simp [connectionOutbound, socketNew, hgate]
  · intro h1 h2
    simp only [portOutOfRange, Bool.or_eq_false_iff, decide_eq_false_iff_not]
    omega

/-- C9: with a valid port and a valid descriptor, inbound `Connection`
construction fails with InvalidArgument whenever the two parsed addresses
have differing families or an unsupported (non-INET) family; when both
share a supported family, it succeeds, stores the canonical text of both
addresses, and sets the Stream's family to the common family. -/
theorem c9_inbound_family (laddress raddress : AddrStorage) (p : Int)
    (sockValid : Bool) (h1 : 1 ≤ p) (h2 : p ≤ 65535) (hs : sockValid = true) :
    ((laddress.ss_family ≠ raddress.ss_family ∨ laddress.ss_family = .other) →
      connectionInbound laddress raddress p sockValid
        = .error .invalidArgument)
    ∧ (laddress.ss_family = raddress.ss_family →
       laddress.ss_family ≠ .other →
      connectionInbound laddress raddress p sockValid =
        .ok { buffer := [], fdValid := true,
              family := if laddress.ss_family = .inet then SocketFamily.IPv4
                else SocketFamily.IPv6,
              flow := .Inbound, listen := laddress.canonical,
              remote := raddress.canonical, port := p }) := by
  have hgate : portOutOfRange p = false := by
    simp only [portOutOfRange, Bool.or_eq_false_iff, decide_eq_false_iff_not]
    omega
  subst hs
  constructor
  · intro hbad
    have hcond : ¬(laddress.ss_family = raddress.ss_family ∧
        (laddress.ss_family = .inet ∨ laddress.ss_family = .inet6)) := by
      rcases hbad with hb | hb
      · intro hx
        exact hb hx.1
      · intro hx
        rcases hx.2 with hc | hc <;> rw [hb] at hc <;> simp at hc
    simp [connectionInbound, hgate, hcond]
  · intro heq hno
    have hsup : laddress.ss_family = .inet ∨ laddress.ss_family = .inet6 := by
      cases hfam : laddress.ss_family
      · left; rfl
      · right; rfl
      · exact absurd hfam hno
    simp [connectionInbound, hgate, heq, hsup]
    rcases hsup with hf | hf <;> rw [← heq] <;> simp [hf]

/-- C10: whenever the buffer already holds at least `request_length`
bytes, `read` succeeds without raising any error — even on a Stream whose
descriptor is invalid, since descriptor validity is only checked inside
`enqueueData`, which this path never reaches — consuming and returning the
first `request_length` buffered bytes with no I/O. -/
theorem c10_buffered_read (c : Connection) (reliable : Bool) (n : Nat)
    (script : List ReadEvent) (h : n ≤ c.buffer.length) :
    c.read reliable n script =
      (.ok { c with buffer := c.buffer.drop n } (c.buffer.take n) script,
       []) :=
  read_of_le c reliable n script h

/-- Witness for C1 (amended) at a concrete valid, empty-buffer Stream with
an error-returning read script. -/
theorem c1_read_error_resets_witness :
    (connEx [] true).fdValid = true ∧ (0:Nat) < 5 ∧
    (((connEx [] true).enqueueData false 5 [.err]).1
        = .reset { connEx [] true with fdValid := false } []
      ∧ ((connEx [] true).buffer.length < 5 →
          ((connEx [] true).read false 5 [.err]).1
            = .reset { connEx [] true with fdValid := false } [])
      ∧ Connection.valid { connEx [] true with fdValid := false } = false) :=
  ⟨rfl, by decide, c1_read_error_resets (connEx [] true) false 5 [] rfl
    (by decide)⟩

/-- Witness for C2 at a concrete Stream: a reliable request for 3 bytes
served by two read events. -/
theorem c2_enqueueData_reliable_witness :
    (connEx [] true).fdValid = true ∧ (0:Nat) < 3 ∧
    ((∀ q ∈ ((connEx [] true).enqueueData true 3
        [.ok [1,2], .ok [9,9,9]]).2, 0 < q ∧ q ≤ MAX_BYTES)
      ∧ (∀ c' r rest, ((connEx [] true).enqueueData true 3
          [.ok [1,2], .ok [9,9,9]]).1 = .ok c' r rest →
          r = 3 ∧ ∃ app, c'.buffer = (connEx [] true).buffer ++ app
            ∧ app.length = 3)
      ∧ (∀ c₀, ((connEx [] true).enqueueData true 3
          [.ok [1,2], .ok [9,9,9]]).1 ≠ .invalidArg c₀)) :=
  ⟨rfl, by decide, c2_enqueueData_reliable (connEx [] true) 3
    [.ok [1,2], .ok [9,9,9]] rfl (by decide)⟩

/-- Witness for C3 at a concrete Stream: an unreliable request for 5 bytes
answered with 2 bytes. -/
theorem c3_enqueueData_unreliable_witness :
    (connEx [] true).fdValid = true ∧ (0:Nat) < 5 ∧
    (((connEx [] true).enqueueData false 5 [.ok [7,8]]).2
        = [min 5 MAX_BYTES]
      ∧ (∀ c' r rest, ((connEx [] true).enqueueData false 5
          [.ok [7,8]]).1 = .ok c' r rest →
          ∃ app, c'.buffer = (connEx [] true).buffer ++ app
            ∧ r = app.length ∧ r ≤ min 5 MAX_BYTES)) :=
  ⟨rfl, by decide, c3_enqueueData_unreliable (connEx [] true) 5 [.ok [7,8]]
    rfl (by decide)⟩

/-- Witness for C4: a buffered read of 2 bytes from a 3-byte buffer
performs no I/O. -/
theorem c4_read_spec_witness :
    (2:Nat) ≤ (connEx [1,2,3] true).buffer.length ∧
    (connEx [1,2,3] true).read true 2 [.err] =
      (.ok { connEx [1,2,3] true with
             buffer := (connEx [1,2,3] true).buffer.drop 2 }
        ((connEx [1,2,3] true).buffer.take 2) [.err], []) :=
  ⟨by decide, (c4_read_spec (connEx [1,2,3] true) true 2 [.err]).1
    (by decide)⟩

/-- Witness for C5: buffer "abc\ndef" (bytes [97,98,99,10,100,101,102])
with delimiter '\n' (10): the returned prefix is "abc\n" and "def" stays
buffered, with no I/O. -/
theorem c5_readDelim_spec_witness :
    10 ∈ (connEx [97,98,99,10,100,101,102] true).buffer ∧
    ∃ loc, findFrom (connEx [97,98,99,10,100,101,102] true).buffer 10 0
        = some loc ∧
      (connEx [97,98,99,10,100,101,102] true).readDelim 10 [] =
        .ok { connEx [97,98,99,10,100,101,102] true with
              buffer := (connEx [97,98,99,10,100,101,102] true).buffer.drop
                (loc + 1) }
          ((connEx [97,98,99,10,100,101,102] true).buffer.take (loc + 1))
          [] :=
  ⟨by decide, (c5_readDelim_spec (connEx [97,98,99,10,100,101,102] true)
    10 []).1 (by decide)⟩

/-- Witness for C6: a 1-byte buffer and a request for 3 bytes. -/
theorem c6_read_shortfall_witness :
    (connEx [1] true).buffer.length < 3 ∧
    (((connEx [1] true).read true 3 [.ok [4,5]]).2
        = [(true, 3 - (connEx [1] true).buffer.length)]
      ∧ ((connEx [1] true).read false 3 [.ok [4,5]]).2
        = [(false, MAX_BYTES)]) :=
  ⟨by decide, c6_read_shortfall (connEx [1] true) 3 [.ok [4,5]]
    (by decide)⟩

/-- Witness for C7: an unreliable enqueue that appends [1,2] to an empty
buffer only appends at the tail. -/
theorem c7_fifo_witness :
    ((connEx [] true).enqueueData false 5 [.ok [1,2]]).1
      = .ok (connEx [1,2] true) 2 [] ∧
    ∃ app, (connEx [1,2] true).buffer = (connEx [] true).buffer ++ app :=
  ⟨by decide, (c7_fifo (connEx [] true) false 5 0 [.ok [1,2]]).1
    (connEx [1,2] true) 2 [] (by decide)⟩

/-- Witness for C8: port 0 is rejected by both constructors with no
syscalls; port 80 passes the port check. -/
theorem c8_port_validation_witness :
    (connectionOutbound (.error ()) 0 true = (.error .invalidArgument, [])
      ∧ socketNew (.error ()) 0 true = (.error .invalidArgument, []))
    ∧ portOutOfRange 80 = false :=
  ⟨(c8_port_validation 0 (.error ()) true true).1 (by decide),
   (c8_port_validation 80 (.error ()) true true).2 (by decide) (by decide)⟩

/-- Witness for C9: an IPv4 listen address with an IPv6 remote address is
rejected; two IPv4 addresses are accepted with canonical texts stored. -/
theorem c9_inbound_family_witness :
    connectionInbound ⟨.inet, "192.168.0.1"⟩ ⟨.inet6, "::1"⟩ 80 true
      = .error .invalidArgument
    ∧ connectionInbound ⟨.inet, "192.168.0.1"⟩ ⟨.inet, "10.0.0.7"⟩ 80 true
      = .ok { buffer := [], fdValid := true, family := .IPv4,
              flow := .Inbound, listen := "192.168.0.1",
              remote := "10.0.0.7", port := 80 } :=
  ⟨(c9_inbound_family ⟨.inet, "192.168.0.1"⟩ ⟨.inet6, "::1"⟩ 80 true
      (by decide) (by decide) rfl).1 (by decide),
   (c9_inbound_family ⟨.inet, "192.168.0.1"⟩ ⟨.inet, "10.0.0.7"⟩ 80 true
      (by decide) (by decide) rfl).2 rfl (by decide)⟩

/-- Witness for C10: a Stream with an *invalid* descriptor and 3 buffered
bytes still serves a 2-byte read without any error. -/
theorem c10_buffered_read_witness :
    (2:Nat) ≤ (connEx [5,6,7] false).buffer.length ∧
    (connEx [5,6,7] false).read true 2 [] =
      (.ok { connEx [5,6,7] false with
             buffer := (connEx [5,6,7] false).buffer.drop 2 }
        ((connEx [5,6,7] false).buffer.take 2) [], []) :=
  ⟨by decide, c10_buffered_read (connEx [5,6,7] false) true 2 []
    (by decide)⟩

end CFNetwork
